import Mathlib

/-!
Verification of the Game of Life universe engine (wasm-game-of-life).

The Rust source stores the board as a FixedBitSet of length width * height
in row-major order.  Here the bit set is modelled as an Array Bool together
with three operations mirroring the FixedBitSet API used by the source:

* fbsGet   models indexing (FixedBitSet.contains): false out of range;
* fbsSet   models FixedBitSet.set on an in-range index (the source only
  calls set with indices proved in range on the paths modelled with fbsSet;
  the one caller where an out-of-range index aborts the program,
  Universe.set_cells, is modelled explicitly with fbsSetChecked);
* fbsGrow  models FixedBitSet.grow: it never shrinks the sequence.

Machine integers (u32 / usize) are modelled as Nat; on every path proved
below the source arithmetic stays far below the wrap boundary, and the
subtraction height - 1 / width - 1 is only used under the hypotheses
(height at least 1, width at least 1) that the specification itself imposes,
where Nat subtraction agrees with the u32 subtraction of the source.
-/

/-- Model of reading one bit of a FixedBitSet: false when out of range. -/
def fbsGet (cs : Array Bool) (i : Nat) : Bool :=
  if h : i < cs.size then cs[i] else false

/-- Model of FixedBitSet.set at an in-range index; out of range leaves the
sequence unchanged (that case never occurs on the paths using fbsSet). -/
def fbsSet (c : Array Bool) (i : Nat) (b : Bool) : Array Bool :=
  if h : i < c.size then c.set ⟨i, h⟩ b else c

/-- Model of FixedBitSet.set that signals the abort of the source program
on an out-of-range index, used to model Universe.set_cells. -/
def fbsSetChecked (c : Array Bool) (i : Nat) (b : Bool) : Option (Array Bool) :=
  if i < c.size then some (fbsSet c i b) else none

/-- Model of FixedBitSet.grow: grow to at least the requested number of
bits, new bits dead; a request smaller than the current length is a no-op. -/
def fbsGrow (c : Array Bool) (bits : Nat) : Array Bool :=
  if bits ≤ c.size then c else c ++ Array.mkArray (bits - c.size) false

/-- Model of FixedBitSet.with_capacity: a sequence of the given length,
all bits dead. -/
def fbsNew (bits : Nat) : Array Bool := Array.mkArray bits false

/-- The board: width, height, and the row-major cell sequence, as in the
Rust struct Universe. -/
structure Universe where
  width : Nat
  height : Nat
  cells : Array Bool
deriving Repr, DecidableEq

namespace Universe

/-- Rust Universe.get_index: row-major flattening. -/
def get_index (u : Universe) (row column : Nat) : Nat :=
  row * u.width + column

/-- Reading a single cell of the board through the bit-set indexing used by
the source (FixedBitSet Index, i.e. contains). -/
def getCell (u : Universe) (idx : Nat) : Bool :=
  fbsGet u.cells idx

/-- Rust Universe.live_neighbor_count: iterate delta_row over
[height - 1, 0, 1] and delta_col over [width - 1, 0, 1], skip the pair whose
two delta values are both zero, and sum the wrapped lookups. -/
def live_neighbor_count (u : Universe) (row column : Nat) : Nat :=
  List.foldl (fun count delta_row =>
    List.foldl (fun count delta_col =>
      if delta_row = 0 ∧ delta_col = 0 then
        count
      else
        let neighbor_row := (row + delta_row) % u.height
        let neighbor_col := (column + delta_col) % u.width
        let idx := u.get_index neighbor_row neighbor_col
        count + (if fbsGet u.cells idx then 1 else 0))
      count [u.width - 1, 0, 1])
    0 [u.height - 1, 0, 1]

/-- The transition rule of the match expression inside Universe.tick, as a
function of the current cell state and its live neighbor count. -/
def next_cell (cell : Bool) (live_neighbors : Nat) : Bool :=
  if cell then
    if live_neighbors < 2 then false
    else if live_neighbors = 2 ∨ live_neighbors = 3 then true
    else if live_neighbors > 3 then false
    else cell
  else
    if live_neighbors = 3 then true else cell

/-- Rust Universe.tick: clone the cell sequence, write the next state of
every cell into the clone while reading states and neighbor counts from the
original sequence, then replace the sequence with the clone. -/
def tick (u : Universe) : Universe :=
  let next := List.foldl (fun next row =>
    List.foldl (fun next col =>
      let idx := u.get_index row col
      let cell := fbsGet u.cells idx
      let live_neighbors := u.live_neighbor_count row col
      fbsSet next idx (next_cell cell live_neighbors))
      next (List.range u.width))
    u.cells (List.range u.height)
  { u with cells := next }

/-- Rust Universe.set_width: store the new width, grow the bit sequence to
the new width times the height, and clear every index below that product. -/
def set_width (u : Universe) (width : Nat) : Universe :=
  let size := width * u.height
  let cells := fbsGrow u.cells size
  let cells := List.foldl (fun c i => fbsSet c i false) cells (List.range size)
  { u with width := width, cells := cells }

/-- Rust Universe.set_height: store the new height, grow the bit sequence to
the width times the new height, and clear every index below that product. -/
def set_height (u : Universe) (height : Nat) : Universe :=
  let size := u.width * height
  let cells := fbsGrow u.cells size
  let cells := List.foldl (fun c i => fbsSet c i false) cells (List.range size)
  { u with height := height, cells := cells }

/-- Rust Universe.new: a width by height board whose cell i takes the value
of an injected random boolean source at i (the source draws
js_sys Math.random() < 0.5 for each index; the draw sequence is the
injected capability rand). -/
def new (width height : Nat) (rand : Nat → Bool) : Universe :=
  let size := width * height
  let cells := List.foldl (fun c i => fbsSet c i (rand i)) (fbsNew size)
    (List.range size)
  { width := width, height := height, cells := cells }

/-- Rust Universe.hardcoded_64_by_64: the fixed 64 by 64 board with cell i
alive when i mod 2 = 0 or i mod 7 = 0. -/
def hardcoded_64_by_64 : Universe :=
  let width := 64
  let height := 64
  let size := width * height
  let cells := List.foldl (fun c i => fbsSet c i (i % 2 == 0 || i % 7 == 0))
    (fbsNew size) (List.range size)
  { width := width, height := height, cells := cells }

/-- Rust Universe.new_glider_at: walk the 3 by 3 wrapped neighborhood of
(row, column) in the same delta order as neighbor counting (without the
skip) and overwrite each visited cell with the next entry of the fixed
9-cell pattern, tracked by the counter in the second component. -/
def new_glider_at (u : Universe) (row column : Nat) : Universe :=
  let neighbourhood : List Bool :=
    [false, true, true, true, false, true, false, false, true]
  let s := List.foldl (fun s delta_row =>
    List.foldl (fun s delta_col =>
      let neighbor_row := (row + delta_row) % u.height
      let neighbor_col := (column + delta_col) % u.width
      let idx := u.get_index neighbor_row neighbor_col
      (fbsSet s.1 idx (neighbourhood.getD s.2 false), s.2 + 1))
      s [u.width - 1, 0, 1])
    ((u.cells, 0) : Array Bool × Nat) [u.height - 1, 0, 1]
  { u with cells := s.1 }

/-- Rust Universe.new_with_spaceship: an all-dead width by height board with
a glider seeded at (width / 2, height / 2). -/
def new_with_spaceship (width height : Nat) : Universe :=
  let size := width * height
  let cells := List.foldl (fun c i => fbsSet c i false) (fbsNew size)
    (List.range size)
  let u : Universe := { width := width, height := height, cells := cells }
  u.new_glider_at (width / 2) (height / 2)

/-- Rust Display for Universe together with Universe.render: for each row,
append the alive or dead glyph of each cell, then append a newline. -/
def render (u : Universe) : String :=
  List.foldl (fun s row =>
    (List.foldl (fun s col =>
      s.push (if u.getCell (u.get_index row col) then '◼' else '◻'))
      s (List.range u.width)).push '\n')
    "" (List.range u.height)

/-- Rust Universe.set_cells: set each listed (row, column) to alive in list
order through get_index, with no wrapping; the first index falling outside
the bit sequence aborts the program, modelled as none. -/
def set_cells (u : Universe) (cells : List (Nat × Nat)) : Option Universe :=
  match cells.foldlM
      (fun c p => fbsSetChecked c (u.get_index p.1 p.2) true) u.cells with
  | some c => some { u with cells := c }
  | none => none

end Universe

/-- The states of a Universe reachable by the exported API without aborting:
any constructor, then any sequence of tick, set_width, set_height,
new_glider_at and successful set_cells calls.  Seeding a glider requires
nonzero dimensions, since the source computes height - 1 and reduces modulo
the dimensions there. -/
inductive Reach : Universe → Prop where
  | of_hardcoded : Reach Universe.hardcoded_64_by_64
  | of_new (width height : Nat) (rand : Nat → Bool) :
      Reach (Universe.new width height rand)
  | of_spaceship (width height : Nat) (hw : 1 ≤ width) (hh : 1 ≤ height) :
      Reach (Universe.new_with_spaceship width height)
  | of_tick (u : Universe) : Reach u → Reach u.tick
  | of_set_width (u : Universe) (w : Nat) : Reach u → Reach (u.set_width w)
  | of_set_height (u : Universe) (h : Nat) : Reach u → Reach (u.set_height h)
  | of_glider (u : Universe) (row col : Nat) (hw : 1 ≤ u.width)
      (hh : 1 ≤ u.height) : Reach u → Reach (u.new_glider_at row col)
  | of_set_cells (u v : Universe) (l : List (Nat × Nat)) : Reach u →
      u.set_cells l = some v → Reach v

/-- Sum of the alive states of the eight offset pairs of the delta table in
the specification: delta_row in the set containing height - 1, 0 and 1,
delta_col likewise with width, with the literal (0, 0) pair removed, each
looked up at the wrapped position.  This follows the words of the
specification and is compared against live_neighbor_count. -/
def neighborSumSpec (u : Universe) (row col : Nat) : Nat :=
  List.foldl (fun count p =>
    count +
      (if fbsGet u.cells
          (u.get_index ((row + p.1) % u.height) ((col + p.2) % u.width))
        then 1 else 0)) 0
    [(u.height - 1, u.width - 1), (u.height - 1, 0), (u.height - 1, 1),
     (0, u.width - 1), (0, 1),
     (1, u.width - 1), (1, 0), (1, 1)]

/-- The five cells the specification says are alive after seeding a glider
at (row, col): the alive entries of the fixed 9-cell pattern laid over the
wrapped 3 by 3 neighborhood in row-major order. -/
def gliderPatternAlive (u : Universe) (row col : Nat) : List Nat :=
  [u.get_index ((row + (u.height - 1)) % u.height) (col % u.width),
   u.get_index ((row + (u.height - 1)) % u.height) ((col + 1) % u.width),
   u.get_index (row % u.height) ((col + (u.width - 1)) % u.width),
   u.get_index (row % u.height) ((col + 1) % u.width),
   u.get_index ((row + 1) % u.height) ((col + 1) % u.width)]

/-- A 1 by 1 universe whose single cell is alive. -/
def oneByOneAlive : Universe := { width := 1, height := 1, cells := #[true] }

/-- A 3 by 3 universe, all dead except cell (0, 0). -/
def threeByThreeCorner : Universe :=
  { width := 3, height := 3,
    cells := #[true, false, false, false, false, false, false, false, false] }

/-- A 3 by 3 all-dead universe. -/
def threeByThreeDead : Universe :=
  { width := 3, height := 3, cells := Array.mkArray 9 false }

/-- A reachable universe on which set_width was used to shrink the board:
the bit sequence keeps its old length because grow never shrinks. -/
def shrunkUniverse : Universe :=
  (Universe.new 2 2 (fun _ => false)).set_width 1

/-! ## Basic lemmas about the FixedBitSet model -/

theorem size_fbsSet (c : Array Bool) (i : Nat) (b : Bool) :
    (fbsSet c i b).size = c.size := by
  unfold fbsSet
  split <;> simp [Array.size_set]

theorem fbsGet_fbsSet (c : Array Bool) (i j : Nat) (b : Bool) :
    fbsGet (fbsSet c i b) j = if i = j ∧ j < c.size then b else fbsGet c j := by
  unfold fbsGet fbsSet
  by_cases hi : i < c.size
  · rw [dif_pos hi]
    by_cases hj : j < c.size
    · have hj2 : j < (c.set ⟨i, hi⟩ b).size := by rw [Array.size_set]; exact hj
      rw [dif_pos hj2, dif_pos hj, Array.get_set c ⟨i, hi⟩ j hj b]
      by_cases hij : i = j
      · rw [if_pos hij, if_pos ⟨hij, hj⟩]
      · rw [if_neg hij, if_neg (fun h2 : i = j ∧ j < c.size => hij h2.1)]
    · have hj2 : ¬ j < (c.set ⟨i, hi⟩ b).size := by rw [Array.size_set]; exact hj
      rw [dif_neg hj2, dif_neg hj, if_neg (fun h2 : i = j ∧ j < c.size => hj h2.2)]
  · rw [dif_neg hi, if_neg (fun h2 : i = j ∧ j < c.size => hi (h2.1 ▸ h2.2))]

theorem fbsGet_oob (c : Array Bool) (j : Nat) (hj : c.size ≤ j) :
    fbsGet c j = false := by
  unfold fbsGet
  rw [dif_neg (by omega)]

theorem size_foldl_preserved {α : Type} (g : Array Bool → α → Array Bool)
    (hg : ∀ c a, (g c a).size = c.size) (l : List α) (c : Array Bool) :
    (l.foldl g c).size = c.size := by
  induction l generalizing c with
  | nil => rfl
  | cons a l ih => rw [List.foldl_cons, ih, hg]

theorem size_foldl_fbsSet {α : Type} (f : α → Nat) (v : α → Bool) (l : List α)
    (c : Array Bool) :
    (l.foldl (fun c a => fbsSet c (f a) (v a)) c).size = c.size :=
  size_foldl_preserved _ (fun c a => size_fbsSet c (f a) (v a)) l c

theorem fbsGet_foldl_fbsSet_ne {α : Type} (f : α → Nat) (v : α → Bool)
    (l : List α) (c : Array Bool) (j : Nat) (hj : ∀ a ∈ l, f a ≠ j) :
    fbsGet (l.foldl (fun c a => fbsSet c (f a) (v a)) c) j = fbsGet c j := by
  induction l generalizing c with
  | nil => rfl
  | cons a l ih =>
    rw [List.foldl_cons, ih _ (fun a2 ha => hj a2 (List.mem_cons_of_mem _ ha)),
      fbsGet_fbsSet, if_neg]
    intro h2
    exact hj a (List.mem_cons_self _ _) h2.1

theorem fbsGet_foldl_fbsSet_range (f : Nat → Nat) (v : Nat → Bool) (n : Nat)
    (c : Array Bool) (i j : Nat) (hi : i < n) (hij : f i = j) (hj : j < c.size)
    (huniq : ∀ i2, i2 < n → f i2 = j → i2 = i) :
    fbsGet ((List.range n).foldl (fun c a => fbsSet c (f a) (v a)) c) j = v i := by
  induction n with
  | zero => omega
  | succ n ih =>
    rw [List.range_succ, List.foldl_append]
    simp only [List.foldl_cons, List.foldl_nil]
    have hsize : ((List.range n).foldl (fun c a => fbsSet c (f a) (v a)) c).size
        = c.size := size_foldl_fbsSet f v _ c
    by_cases hin : i = n
    · subst hin
      rw [fbsGet_fbsSet, if_pos ⟨hij, by rw [hsize]; exact hj⟩]
    · have hi2 : i < n := by omega
      rw [fbsGet_fbsSet, if_neg, ih hi2 (fun i2 h2 h3 => huniq i2 (by omega) h3)]
      intro h2
      exact hin (huniq n (by omega) h2.1).symm

theorem fbsGet_foldl_clear (n : Nat) (c : Array Bool) (j : Nat)
    (hj : j < n) (hn : n ≤ c.size) :
    fbsGet ((List.range n).foldl (fun c i => fbsSet c i false) c) j = false := by
  simpa using fbsGet_foldl_fbsSet_range (fun i => i) (fun _ => false) n c j j hj
    rfl (by omega) (fun i2 _ h => h)

theorem size_fbsGrow (c : Array Bool) (n : Nat) :
    (fbsGrow c n).size = max c.size n := by
  unfold fbsGrow
  split <;> simp [Array.size_append, Array.size_mkArray] <;> omega

/-! ## Indexing lemmas -/

theorem get_index_lt (u : Universe) {row col : Nat} (hr : row < u.height)
    (hc : col < u.width) : u.get_index row col < u.width * u.height := by
  unfold Universe.get_index
  calc row * u.width + col < row * u.width + u.width := by omega
    _ = (row + 1) * u.width := by ring
    _ ≤ u.height * u.width := Nat.mul_le_mul_right _ (by omega)
    _ = u.width * u.height := Nat.mul_comm _ _

theorem get_index_inj (u : Universe) {r c r2 c2 : Nat} (hc : c < u.width)
    (hc2 : c2 < u.width) (h : u.get_index r c = u.get_index r2 c2) :
    r = r2 ∧ c = c2 := by
  unfold Universe.get_index at h
  have hw : 0 < u.width := by omega
  have h1 : c = c2 := by
    have h2 := congrArg (fun x => x % u.width) h
    simpa [Nat.mul_add_mod', Nat.mod_eq_of_lt hc, Nat.mod_eq_of_lt hc2] using h2
  subst h1
  exact ⟨Nat.eq_of_mul_eq_mul_right hw (by omega), rfl⟩

theorem get_index_ne (u : Universe) {r c r2 c2 : Nat} (hc : c < u.width)
    (hc2 : c2 < u.width) (hne : r ≠ r2 ∨ c ≠ c2) :
    u.get_index r c ≠ u.get_index r2 c2 := by
  intro h
  rcases get_index_inj u hc hc2 h with ⟨h1, h2⟩
  rcases hne with h3 | h3 <;> exact h3 (by omega)

/-! ## Sizes and dimensions of the operations -/

theorem tick_width (u : Universe) : u.tick.width = u.width := rfl

theorem tick_height (u : Universe) : u.tick.height = u.height := rfl

theorem tick_size (u : Universe) : u.tick.cells.size = u.cells.size := by
  simp only [Universe.tick]
  exact size_foldl_preserved _
    (fun c row => size_foldl_preserved _ (fun c2 col => size_fbsSet _ _ _) _ _)
    _ _

theorem glider_width (u : Universe) (row col : Nat) :
    (u.new_glider_at row col).width = u.width := by
  simp only [Universe.new_glider_at]

theorem glider_height (u : Universe) (row col : Nat) :
    (u.new_glider_at row col).height = u.height := by
  simp only [Universe.new_glider_at]

theorem glider_size (u : Universe) (row col : Nat) :
    (u.new_glider_at row col).cells.size = u.cells.size := by
  simp only [Universe.new_glider_at]
  simp [size_fbsSet]

theorem set_width_width (u : Universe) (w : Nat) : (u.set_width w).width = w :=
  rfl

theorem set_width_height (u : Universe) (w : Nat) :
    (u.set_width w).height = u.height := rfl

theorem set_width_size (u : Universe) (w : Nat) :
    (u.set_width w).cells.size = max u.cells.size (w * u.height) := by
  simp only [Universe.set_width]
  rw [size_foldl_preserved _ (fun c i => size_fbsSet c i false), size_fbsGrow]

theorem set_height_width (u : Universe) (h : Nat) :
    (u.set_height h).width = u.width := rfl

theorem set_height_height (u : Universe) (h : Nat) :
    (u.set_height h).height = h := rfl

theorem set_height_size (u : Universe) (h : Nat) :
    (u.set_height h).cells.size = max u.cells.size (u.width * h) := by
  simp only [Universe.set_height]
  rw [size_foldl_preserved _ (fun c i => size_fbsSet c i false), size_fbsGrow]

theorem new_width (w h : Nat) (rand : Nat → Bool) :
    (Universe.new w h rand).width = w := by
  simp only [Universe.new]

theorem new_height (w h : Nat) (rand : Nat → Bool) :
    (Universe.new w h rand).height = h := by
  simp only [Universe.new]

theorem new_size (w h : Nat) (rand : Nat → Bool) :
    (Universe.new w h rand).cells.size = w * h := by
  simp only [Universe.new]
  rw [size_foldl_preserved _ (fun c i => size_fbsSet _ _ _)]
  simp [fbsNew]

theorem hardcoded_size : Universe.hardcoded_64_by_64.cells.size = 64 * 64 := by
  simp only [Universe.hardcoded_64_by_64]
  rw [size_foldl_preserved _ (fun c i => size_fbsSet _ _ _)]
  simp [fbsNew]

theorem spaceship_width (w h : Nat) : (Universe.new_with_spaceship w h).width = w :=
  rfl

theorem spaceship_height (w h : Nat) :
    (Universe.new_with_spaceship w h).height = h := rfl

theorem spaceship_size (w h : Nat) :
    (Universe.new_with_spaceship w h).cells.size = w * h := by
  simp only [Universe.new_with_spaceship]
  rw [glider_size]
  show (List.foldl _ (fbsNew (w * h)) (List.range (w * h))).size = w * h
  rw [size_foldl_preserved _ (fun c i => size_fbsSet _ _ _)]
  simp [fbsNew]

/-! ## The set_cells fold -/

theorem foldlM_setChecked_size (f : Nat × Nat → Nat) (l : List (Nat × Nat)) :
    ∀ (c c2 : Array Bool),
      l.foldlM (fun c p => fbsSetChecked c (f p) true) c = some c2 →
      c2.size = c.size := by
  induction l with
  | nil =>
    intro c c2 h
    simp only [List.foldlM_nil] at h
    cases h
    rfl
  | cons p l ih =>
    intro c c2 h
    simp only [List.foldlM_cons] at h
    unfold fbsSetChecked at h
    by_cases hp : f p < c.size
    · rw [if_pos hp] at h
      simp only [Option.bind_eq_bind, Option.some_bind] at h
      rw [ih _ _ h, size_fbsSet]
    · rw [if_neg hp] at h
      simp at h

theorem foldlM_setChecked_none_iff (f : Nat × Nat → Nat) (l : List (Nat × Nat)) :
    ∀ c : Array Bool,
      l.foldlM (fun c p => fbsSetChecked c (f p) true) c = none ↔
        ∃ p ∈ l, c.size ≤ f p := by
  induction l with
  | nil => intro c; simp
  | cons p l ih =>
    intro c
    simp only [List.foldlM_cons]
    by_cases hp : f p < c.size
    · rw [show fbsSetChecked c (f p) true = some (fbsSet c (f p) true) by
        unfold fbsSetChecked; rw [if_pos hp]]
      simp only [Option.bind_eq_bind, Option.some_bind]
      rw [ih]
      simp only [size_fbsSet, List.mem_cons]
      constructor
      · rintro ⟨q, hq, hq2⟩
        exact ⟨q, Or.inr hq, hq2⟩
      · rintro ⟨q, hq | hq, hq2⟩
        · subst hq; omega
        · exact ⟨q, hq, hq2⟩
    · rw [show fbsSetChecked c (f p) true = none by
        unfold fbsSetChecked; rw [if_neg hp]]
      simp only [Option.bind_eq_bind, Option.none_bind]
      constructor
      · intro _; exact ⟨p, List.mem_cons_self _ _, by omega⟩
      · intro _; trivial

theorem foldlM_setChecked_spec (f : Nat × Nat → Nat) (l : List (Nat × Nat)) :
    ∀ c : Array Bool, (∀ p ∈ l, f p < c.size) →
      ∃ c2, l.foldlM (fun c p => fbsSetChecked c (f p) true) c = some c2 ∧
        c2.size = c.size ∧
        ∀ j, fbsGet c2 j = if ∃ p ∈ l, f p = j then true else fbsGet c j := by
  induction l with
  | nil =>
    intro c _
    exact ⟨c, by simp, rfl, by simp⟩
  | cons p l ih =>
    intro c hl
    have hp : f p < c.size := hl p (List.mem_cons_self _ _)
    have hl2 : ∀ q ∈ l, f q < (fbsSet c (f p) true).size := by
      rw [size_fbsSet]
      exact fun q hq => hl q (List.mem_cons_of_mem _ hq)
    obtain ⟨c2, h1, h2, h3⟩ := ih (fbsSet c (f p) true) hl2
    refine ⟨c2, ?_, by rw [h2, size_fbsSet], ?_⟩
    · simp only [List.foldlM_cons]
      unfold fbsSetChecked
      rw [if_pos hp]
      simpa using h1
    · intro j
      rw [h3 j, fbsGet_fbsSet]
      by_cases hj1 : ∃ q ∈ l, f q = j
      · rw [if_pos hj1, if_pos]
        obtain ⟨q, hq, hq2⟩ := hj1
        exact ⟨q, List.mem_cons_of_mem _ hq, hq2⟩
      · rw [if_neg hj1]
        by_cases hj2 : f p = j
        · rw [if_pos ⟨hj2, by omega⟩, if_pos ⟨p, List.mem_cons_self _ _, hj2⟩]
        · rw [if_neg (fun h2 : f p = j ∧ j < c.size => hj2 h2.1), if_neg]
          rintro ⟨q, hq, hq2⟩
          rcases List.mem_cons.mp hq with hq3 | hq3
          · subst hq3; exact hj2 hq2
          · exact hj1 ⟨q, hq3, hq2⟩

theorem set_cells_some_dims (u v : Universe) (l : List (Nat × Nat))
    (h : u.set_cells l = some v) :
    v.width = u.width ∧ v.height = u.height ∧ v.cells.size = u.cells.size := by
  unfold Universe.set_cells at h
  cases heq : l.foldlM (fun c p => fbsSetChecked c (u.get_index p.1 p.2) true)
      u.cells with
  | none => rw [heq] at h; cases h
  | some c =>
    rw [heq] at h
    cases h
    exact ⟨rfl, rfl, foldlM_setChecked_size _ _ _ _ heq⟩

/-! ## Claim C2: the dimension invariant -/

/-- C2 (counterexample): the reachable state obtained by constructing a
2 by 2 board and then shrinking it with set_width 1 has a cell sequence of
length 4 while width times height is 2, because grow never shrinks the
sequence; so the claimed equality fails on a reachable state. -/
theorem size_eq_area_counterexample :
    Reach shrunkUniverse ∧
      shrunkUniverse.cells.size ≠ shrunkUniverse.width * shrunkUniverse.height :=
  ⟨Reach.of_set_width _ 1 (Reach.of_new 2 2 (fun _ => false)), by decide⟩

/-- C2 (amended): for every reachable state of a Universe, the length of the
cells bit sequence is at least width times height; equality can fail after a
shrinking resize, since grow never shrinks the bit sequence. -/
theorem reach_area_le_size (u : Universe) (h : Reach u) :
    u.width * u.height ≤ u.cells.size := by
  induction h with
  | of_hardcoded =>
    rw [hardcoded_size]
    exact Nat.le_refl _
  | of_new w h rand => rw [new_width, new_height, new_size]
  | of_spaceship w h hw hh =>
    rw [spaceship_width, spaceship_height, spaceship_size]
  | of_tick u hu ih => rw [tick_width, tick_height, tick_size]; exact ih
  | of_set_width u w hu ih =>
    rw [set_width_width, set_width_height, set_width_size]
    omega
  | of_set_height u h hu ih =>
    rw [set_height_width, set_height_height, set_height_size]
    omega
  | of_glider u row col hw hh hu ih =>
    rw [glider_width, glider_height, glider_size]
    exact ih
  | of_set_cells u v l hu heq ih =>
    obtain ⟨h1, h2, h3⟩ := set_cells_some_dims u v l heq
    rw [h1, h2, h3]
    exact ih

/-- Witness for the amended C2 theorem at the hardcoded 64 by 64 board. -/
theorem reach_area_le_size_witness :
    Universe.hardcoded_64_by_64.width * Universe.hardcoded_64_by_64.height ≤
      Universe.hardcoded_64_by_64.cells.size :=
  reach_area_le_size _ Reach.of_hardcoded

/-! ## Claim C1: tick computes every cell from the pre-tick state -/

theorem tick_fold_cell (u : Universe) (row col : Nat) (hc : col < u.width)
    (hidx : u.get_index row col < u.cells.size) :
    ∀ n, row < n →
      fbsGet ((List.range n).foldl (fun next row2 =>
          List.foldl (fun next2 col2 =>
            fbsSet next2 (u.get_index row2 col2)
              (Universe.next_cell (fbsGet u.cells (u.get_index row2 col2))
                (u.live_neighbor_count row2 col2))) next (List.range u.width))
          u.cells) (u.get_index row col)
        = Universe.next_cell (fbsGet u.cells (u.get_index row col))
            (u.live_neighbor_count row col) := by
  intro n
  induction n with
  | zero => omega
  | succ n ih =>
    intro hn
    rw [List.range_succ, List.foldl_append, List.foldl_cons, List.foldl_nil]
    have hsize : ((List.range n).foldl (fun next row2 =>
        List.foldl (fun next2 col2 =>
          fbsSet next2 (u.get_index row2 col2)
            (Universe.next_cell (fbsGet u.cells (u.get_index row2 col2))
              (u.live_neighbor_count row2 col2))) next (List.range u.width))
        u.cells).size = u.cells.size :=
      size_foldl_preserved _
        (fun c2 row2 => size_foldl_fbsSet (fun col2 => u.get_index row2 col2)
          (fun col2 => Universe.next_cell (fbsGet u.cells (u.get_index row2 col2))
            (u.live_neighbor_count row2 col2)) _ c2) _ _
    by_cases hrow : row = n
    · subst hrow
      exact fbsGet_foldl_fbsSet_range (fun col2 => u.get_index row col2)
        (fun col2 => Universe.next_cell (fbsGet u.cells (u.get_index row col2))
          (u.live_neighbor_count row col2))
        u.width _ col (u.get_index row col) hc rfl
        (by rw [hsize]; exact hidx)
        (fun c2 _ h => by simp only [Universe.get_index] at h; omega)
    · rw [fbsGet_foldl_fbsSet_ne (fun col2 => u.get_index n col2)
        (fun col2 => Universe.next_cell (fbsGet u.cells (u.get_index n col2))
          (u.live_neighbor_count n col2)) (List.range u.width) _
        (u.get_index row col)
        (fun a ha => get_index_ne u (List.mem_range.mp ha) hc
          (Or.inl (fun he => hrow he.symm)))]
      exact ih (by omega)

/-- C1: on a board with positive dimensions whose cell sequence has length
width times height, one tick gives every in-range cell (row, col) the value
of the transition rule applied to the pre-tick state of that cell and its
pre-tick live neighbor count; neighbor counts are never taken from cells
already updated in the same tick, since the right-hand side reads only the
pre-tick board u. -/
theorem tick_cell_correct (u : Universe) (row col : Nat)
    (hw : 1 ≤ u.width) (hh : 1 ≤ u.height)
    (hs : u.cells.size = u.width * u.height)
    (hr : row < u.height) (hc : col < u.width) :
    u.tick.getCell (u.get_index row col)
      = Universe.next_cell (u.getCell (u.get_index row col))
          (u.live_neighbor_count row col) := by
  have hidx : u.get_index row col < u.cells.size := by
    rw [hs]; exact get_index_lt u hr hc
  simp only [Universe.tick, Universe.getCell]
  exact tick_fold_cell u row col hc hidx u.height hr

/-- Witness for C1 at the 3 by 3 board with one alive corner cell. -/
theorem tick_cell_correct_witness :
    threeByThreeCorner.tick.getCell (threeByThreeCorner.get_index 1 1)
      = Universe.next_cell (threeByThreeCorner.getCell (threeByThreeCorner.get_index 1 1))
          (threeByThreeCorner.live_neighbor_count 1 1) :=
  tick_cell_correct threeByThreeCorner 1 1 (by decide) (by decide) (by decide)
    (by decide) (by decide)

/-! ## Claim C3: resizing resets every cell of the new grid -/

theorem rowmajor_lt {row col w h : Nat} (hr : row < h) (hc : col < w) :
    row * w + col < w * h := by
  have h1 : (row + 1) * w ≤ h * w := Nat.mul_le_mul_right _ (by omega)
  have h2 : (row + 1) * w = row * w + w := by ring
  have h3 : h * w = w * h := Nat.mul_comm _ _
  omega

/-- C3: after set_width w or set_height h, including a call passing the
current value, every cell of the resulting width by height grid is dead:
the resize is a full reset, not a content-preserving resize. -/
theorem resize_resets_cells (u : Universe) (w h r1 c1 r2 c2 : Nat)
    (h1 : r1 < u.height) (h2 : c1 < w) (h3 : r2 < h) (h4 : c2 < u.width) :
    (u.set_width w).getCell ((u.set_width w).get_index r1 c1) = false ∧
      (u.set_height h).getCell ((u.set_height h).get_index r2 c2) = false := by
  constructor
  · simp only [Universe.getCell, Universe.get_index, set_width_width]
    simp only [Universe.set_width]
    exact fbsGet_foldl_clear _ _ _ (rowmajor_lt h1 h2)
      (by rw [size_fbsGrow]; omega)
  · simp only [Universe.getCell, Universe.get_index, set_height_width]
    simp only [Universe.set_height]
    refine fbsGet_foldl_clear _ _ _ ?_ (by rw [size_fbsGrow]; omega)
    have := rowmajor_lt h3 h4
    have h5 : r2 * u.width + c2 < u.width * h := by
      have h6 := Nat.mul_comm u.width h
      omega
    exact h5

/-- Witness for C3 at the seeded 3 by 3 board, resized to its own size:
the previously alive corner cell is dead afterwards. -/
theorem resize_resets_cells_witness :
    (threeByThreeCorner.set_width 3).getCell
        ((threeByThreeCorner.set_width 3).get_index 0 0) = false ∧
      (threeByThreeCorner.set_height 3).getCell
        ((threeByThreeCorner.set_height 3).get_index 0 0) = false :=
  resize_resets_cells threeByThreeCorner 3 3 0 0 0 0 (by decide) (by decide)
    (by decide) (by decide)

/-! ## Claim C4: the quoted 3 by 3 neighbor counts -/

/-- C4 (counterexample): on the 3 by 3 board with only (0, 0) alive, the
neighbor count of (1, 1) is not 0, since (0, 0) is diagonally adjacent to
the center cell even without wraparound. -/
theorem neighbor_count_center_counterexample :
    threeByThreeCorner.live_neighbor_count 1 1 ≠ 0 := by decide

/-- C4 (amended): on the 3 by 3 board with only (0, 0) alive, the neighbor
count of (2, 2) is 1 by wraparound and the neighbor count of (1, 1) is also
1, the center cell touching (0, 0) diagonally. -/
theorem neighbor_count_3x3_values :
    threeByThreeCorner.live_neighbor_count 2 2 = 1 ∧
      threeByThreeCorner.live_neighbor_count 1 1 = 1 := by decide

/-! ## Claim C10: the 1 by 1 board -/

/-- C10 (counterexample): on the 1 by 1 board with its cell alive, the
neighbor count at (0, 0) is not 8: with height 1 and width 1 both delta
lists collapse to [0, 0, 1], the skip test on the delta values fires for
four of the nine pairs, and only five lookups remain. -/
theorem one_by_one_neighbor_count_counterexample :
    oneByOneAlive.live_neighbor_count 0 0 ≠ 8 := by decide

/-- C10 (amended): on the 1 by 1 board with its cell alive the neighbor
count at (0, 0) is 5, every counted lookup landing on the cell itself, and
one tick still kills the cell since 5 exceeds 3. -/
theorem one_by_one_neighbor_count_tick :
    oneByOneAlive.live_neighbor_count 0 0 = 5 ∧
      oneByOneAlive.tick.getCell (oneByOneAlive.get_index 0 0) = false := by
  decide

/-! ## Claim C5: neighbor counting against the eight-offset table -/

/-- C5 (counterexample): on the 1 by 1 board, which satisfies the claimed
precondition of positive dimensions, live_neighbor_count differs from the
sum over the eight offsets of the delta table: the code skips every pair
whose two delta values are zero, and with width 1 and height 1 the
collapsed deltas make that four pairs instead of one. -/
theorem neighbor_count_eight_sum_counterexample :
    1 ≤ oneByOneAlive.width ∧ 1 ≤ oneByOneAlive.height ∧
      oneByOneAlive.live_neighbor_count 0 0 ≠ neighborSumSpec oneByOneAlive 0 0 := by
  decide

/-- C5 (amended): for width and height at least 2 and any in-range cell,
live_neighbor_count equals the sum of the alive states over the eight
toroidally wrapped offsets of the delta table, and lies in [0, 8].  For
width or height 1 the equality fails, as the counterexample shows. -/
theorem neighbor_count_eq_moore_sum (u : Universe) (row col : Nat)
    (hh : 2 ≤ u.height) (hw : 2 ≤ u.width)
    (hr : row < u.height) (hc : col < u.width) :
    u.live_neighbor_count row col = neighborSumSpec u row col ∧
      u.live_neighbor_count row col ≤ 8 := by
  have h1 : ¬ (u.height - 1 = 0) := by omega
  have w1 : ¬ (u.width - 1 = 0) := by omega
  have key : u.live_neighbor_count row col = neighborSumSpec u row col := by
    simp only [Universe.live_neighbor_count, neighborSumSpec, List.foldl_cons,
      List.foldl_nil]
    simp [h1, w1]
  refine ⟨key, ?_⟩
  rw [key]
  simp only [neighborSumSpec, List.foldl_cons, List.foldl_nil]
  split_ifs <;> omega

/-- Witness for the amended C5 theorem at the seeded 3 by 3 board. -/
theorem neighbor_count_eq_moore_sum_witness :
    threeByThreeCorner.live_neighbor_count 0 0
        = neighborSumSpec threeByThreeCorner 0 0 ∧
      threeByThreeCorner.live_neighbor_count 0 0 ≤ 8 :=
  neighbor_count_eq_moore_sum threeByThreeCorner 0 0 (by decide) (by decide)
    (by decide) (by decide)

/-! ## Claims C8 and C9: set_cells -/

/-- C8: for a list of in-range coordinates, set_cells succeeds, makes every
listed cell alive, and leaves every other in-range cell with its previous
state; the coordinates are used raw, with no wraparound. -/
theorem set_cells_in_range_effect (u : Universe) (l : List (Nat × Nat))
    (hs : u.width * u.height ≤ u.cells.size)
    (hl : ∀ p ∈ l, p.1 < u.height ∧ p.2 < u.width) :
    ∃ v, u.set_cells l = some v ∧
      ∀ r c, r < u.height → c < u.width →
        v.getCell (u.get_index r c) =
          (if (r, c) ∈ l then true else u.getCell (u.get_index r c)) := by
  have hb : ∀ p ∈ l, (fun p : Nat × Nat => u.get_index p.1 p.2) p < u.cells.size := by
    intro p hp
    have h2 := hl p hp
    have h3 := get_index_lt u h2.1 h2.2
    show u.get_index p.1 p.2 < u.cells.size
    omega
  obtain ⟨c2, h1, h2, h3⟩ :=
    foldlM_setChecked_spec (fun p => u.get_index p.1 p.2) l u.cells hb
  refine ⟨{ u with cells := c2 }, ?_, ?_⟩
  · unfold Universe.set_cells
    rw [h1]
  · intro r c hr hc
    show fbsGet c2 (u.get_index r c) = _
    rw [h3]
    by_cases hm : (r, c) ∈ l
    · rw [if_pos, if_pos hm]
      exact ⟨(r, c), hm, rfl⟩
    · rw [if_neg, if_neg hm]
      · rfl
      · rintro ⟨⟨q1, q2⟩, hq, hq2⟩
        have h4 := hl _ hq
        obtain ⟨e1, e2⟩ := get_index_inj u h4.2 hc hq2
        subst e1
        subst e2
        exact hm hq

/-- Witness for C8 at the 3 by 3 dead board with two listed cells. -/
theorem set_cells_in_range_effect_witness :
    ∃ v, threeByThreeDead.set_cells [(1, 2), (0, 0)] = some v ∧
      ∀ r c, r < threeByThreeDead.height → c < threeByThreeDead.width →
        v.getCell (threeByThreeDead.get_index r c) =
          (if (r, c) ∈ [(1, 2), (0, 0)] then true
            else threeByThreeDead.getCell (threeByThreeDead.get_index r c)) :=
  set_cells_in_range_effect threeByThreeDead [(1, 2), (0, 0)] (by decide)
    (by decide)

/-- C9 (counterexample): on the 3 by 3 dead board, the list [(0, 5)] holds
an out-of-range column (5 is at least the width 3), yet set_cells does not
abort: it silently writes the cell at flattened index 5, which is the
distinct in-range cell (1, 2). -/
theorem set_cells_out_of_range_counterexample :
    threeByThreeDead.width ≤ 5 ∧
      (threeByThreeDead.set_cells [(0, 5)]).isSome = true ∧
      (threeByThreeDead.set_cells [(0, 5)]).map
          (fun v => v.getCell (threeByThreeDead.get_index 1 2)) = some true := by
  decide

/-- C9 (amended): set_cells aborts exactly when some listed pair has
flattened index row * width + column at or beyond the length of the cell
sequence; an out-of-range pair whose flattened index is below the length,
which happens when the column spills past the width, is written silently to
the cell at that flattened index, aliasing a different cell. -/
theorem set_cells_none_iff (u : Universe) (l : List (Nat × Nat)) :
    u.set_cells l = none ↔ ∃ p ∈ l, u.cells.size ≤ u.get_index p.1 p.2 := by
  rw [← foldlM_setChecked_none_iff (fun p => u.get_index p.1 p.2) l u.cells]
  unfold Universe.set_cells
  cases l.foldlM (fun c p => fbsSetChecked c (u.get_index p.1 p.2) true)
      u.cells with
  | none => simp
  | some c => simp

/-! ## Claim C7: the structure of render -/

theorem foldl_push_data (g : Nat → Char) (l : List Nat) :
    ∀ s : String, (l.foldl (fun s i => s.push (g i)) s).data = s.data ++ l.map g := by
  induction l with
  | nil => intro s; simp
  | cons a l ih => intro s; simp [List.foldl_cons, ih, String.data_push]

theorem render_fold_data (u : Universe) (rows : List Nat) :
    ∀ s : String,
      (rows.foldl (fun s row =>
          ((List.range u.width).foldl (fun s2 col =>
            s2.push (if u.getCell (u.get_index row col) then '◼' else '◻'))
            s).push '\n') s).data
        = s.data ++ (rows.map (fun row =>
            ((List.range u.width).map (fun col =>
              if u.getCell (u.get_index row col) then '◼' else '◻'))
              ++ ['\n'])).flatten := by
  induction rows with
  | nil => intro s; simp
  | cons r rs ih =>
    intro s
    rw [List.foldl_cons, ih, String.data_push, foldl_push_data]
    simp

/-- C7: the text of render is exactly height lines in row order, each line
exactly width single-character glyphs in column order, the alive glyph for
an alive cell and the dead glyph for a dead cell, and every row, the last
included, is terminated by a newline.  The board is not touched: in this
model render is a pure function of the universe. -/
theorem render_structure (u : Universe) :
    (u.render).data
      = ((List.range u.height).map (fun row =>
          ((List.range u.width).map (fun col =>
            if u.getCell (u.get_index row col) then '◼' else '◻'))
            ++ ['\n'])).flatten := by
  have h := render_fold_data u (List.range u.height) ""
  simpa [Universe.render] using h

/-! ## Claim C6: glider seeding -/

theorem add_one_mod_eq (a n : Nat) (hn : 2 ≤ n) :
    (a + 1) % n = if a % n + 1 = n then 0 else a % n + 1 := by
  have hr : a % n < n := Nat.mod_lt _ (by omega)
  conv_lhs => rw [Nat.add_mod]
  rw [Nat.mod_eq_of_lt (show 1 < n by omega)]
  by_cases h2 : a % n + 1 = n
  · rw [if_pos h2, h2, Nat.mod_self]
  · rw [if_neg h2, Nat.mod_eq_of_lt (by omega)]

theorem add_pred_mod_eq (a n : Nat) (hn : 2 ≤ n) :
    (a + (n - 1)) % n = if a % n = 0 then n - 1 else a % n - 1 := by
  have hr : a % n < n := Nat.mod_lt _ (by omega)
  conv_lhs => rw [Nat.add_mod]
  rw [Nat.mod_eq_of_lt (show n - 1 < n by omega)]
  by_cases h0 : a % n = 0
  · rw [if_pos h0, h0, Nat.zero_add, Nat.mod_eq_of_lt (by omega)]
  · rw [if_neg h0]
    have h2 : a % n + (n - 1) = n + (a % n - 1) := by omega
    rw [h2, Nat.add_mod_left, Nat.mod_eq_of_lt (by omega)]

theorem glider_chain_char (u : Universe) (r0 r1 r2 c0 c1 c2 : Nat)
    (hbc0 : c0 < u.width) (hbc1 : c1 < u.width) (hbc2 : c2 < u.width)
    (hner01 : r0 ≠ r1) (hner02 : r0 ≠ r2) (hner12 : r1 ≠ r2)
    (hnec01 : c0 ≠ c1) (hnec02 : c0 ≠ c2) (hnec12 : c1 ≠ c2)
    (hs : u.width * u.height ≤ u.cells.size)
    (hdead : ∀ i, i < u.cells.size → fbsGet u.cells i = false)
    (idx : Nat) (hidx : idx < u.width * u.height) :
    fbsGet (fbsSet (fbsSet (fbsSet (fbsSet (fbsSet (fbsSet (fbsSet (fbsSet
        (fbsSet u.cells (u.get_index r0 c0) false) (u.get_index r0 c1) true)
        (u.get_index r0 c2) true) (u.get_index r1 c0) true)
        (u.get_index r1 c1) false) (u.get_index r1 c2) true)
        (u.get_index r2 c0) false) (u.get_index r2 c1) false)
        (u.get_index r2 c2) true) idx = true ↔
      idx ∈ [u.get_index r0 c1, u.get_index r0 c2, u.get_index r1 c0,
             u.get_index r1 c2, u.get_index r2 c2] := by
  have hidx2 : idx < u.cells.size := by omega
  have A01 : u.get_index r0 c0 ≠ u.get_index r0 c1 :=
    get_index_ne u hbc0 hbc1 (Or.inr hnec01)
  have A02 : u.get_index r0 c0 ≠ u.get_index r0 c2 :=
    get_index_ne u hbc0 hbc2 (Or.inr hnec02)
  have A03 : u.get_index r0 c0 ≠ u.get_index r1 c0 :=
    get_index_ne u hbc0 hbc0 (Or.inl hner01)
  have A05 : u.get_index r0 c0 ≠ u.get_index r1 c2 :=
    get_index_ne u hbc0 hbc2 (Or.inl hner01)
  have A08 : u.get_index r0 c0 ≠ u.get_index r2 c2 :=
    get_index_ne u hbc0 hbc2 (Or.inl hner02)
  have A41 : u.get_index r1 c1 ≠ u.get_index r0 c1 :=
    get_index_ne u hbc1 hbc1 (Or.inl (fun h => hner01 h.symm))
  have A42 : u.get_index r1 c1 ≠ u.get_index r0 c2 :=
    get_index_ne u hbc1 hbc2 (Or.inl (fun h => hner01 h.symm))
  have A43 : u.get_index r1 c1 ≠ u.get_index r1 c0 :=
    get_index_ne u hbc1 hbc0 (Or.inr (fun h => hnec01 h.symm))
  have A45 : u.get_index r1 c1 ≠ u.get_index r1 c2 :=
    get_index_ne u hbc1 hbc2 (Or.inr hnec12)
  have A48 : u.get_index r1 c1 ≠ u.get_index r2 c2 :=
    get_index_ne u hbc1 hbc2 (Or.inl hner12)
  have A61 : u.get_index r2 c0 ≠ u.get_index r0 c1 :=
    get_index_ne u hbc0 hbc1 (Or.inl (fun h => hner02 h.symm))
  have A62 : u.get_index r2 c0 ≠ u.get_index r0 c2 :=
    get_index_ne u hbc0 hbc2 (Or.inl (fun h => hner02 h.symm))
  have A63 : u.get_index r2 c0 ≠ u.get_index r1 c0 :=
    get_index_ne u hbc0 hbc0 (Or.inl (fun h => hner12 h.symm))
  have A65 : u.get_index r2 c0 ≠ u.get_index r1 c2 :=
    get_index_ne u hbc0 hbc2 (Or.inl (fun h => hner12 h.symm))
  have A68 : u.get_index r2 c0 ≠ u.get_index r2 c2 :=
    get_index_ne u hbc0 hbc2 (Or.inr hnec02)
  have A71 : u.get_index r2 c1 ≠ u.get_index r0 c1 :=
    get_index_ne u hbc1 hbc1 (Or.inl (fun h => hner02 h.symm))
  have A72 : u.get_index r2 c1 ≠ u.get_index r0 c2 :=
    get_index_ne u hbc1 hbc2 (Or.inl (fun h => hner02 h.symm))
  have A73 : u.get_index r2 c1 ≠ u.get_index r1 c0 :=
    get_index_ne u hbc1 hbc0 (Or.inl (fun h => hner12 h.symm))
  have A75 : u.get_index r2 c1 ≠ u.get_index r1 c2 :=
    get_index_ne u hbc1 hbc2 (Or.inl (fun h => hner12 h.symm))
  have A78 : u.get_index r2 c1 ≠ u.get_index r2 c2 :=
    get_index_ne u hbc1 hbc2 (Or.inr hnec12)
  simp only [fbsGet_fbsSet, size_fbsSet]
  simp only [hidx2, and_true]
  by_cases e8 : u.get_index r2 c2 = idx
  · subst e8
    simp
  · rw [if_neg e8]
    by_cases e7 : u.get_index r2 c1 = idx
    · subst e7
      simp [A71, A72, A73, A75, A78]
    · rw [if_neg e7]
      by_cases e6 : u.get_index r2 c0 = idx
      · subst e6
        simp [A61, A62, A63, A65, A68]
      · rw [if_neg e6]
        by_cases e5 : u.get_index r1 c2 = idx
        · subst e5
          simp
        · rw [if_neg e5]
          by_cases e4 : u.get_index r1 c1 = idx
          · subst e4
            simp [A41, A42, A43, A45, A48]
          · rw [if_neg e4]
            by_cases e3 : u.get_index r1 c0 = idx
            · subst e3
              simp
            · rw [if_neg e3]
              by_cases e2 : u.get_index r0 c2 = idx
              · subst e2
                simp
              · rw [if_neg e2]
                by_cases e1 : u.get_index r0 c1 = idx
                · subst e1
                  simp
                · rw [if_neg e1]
                  by_cases e0 : u.get_index r0 c0 = idx
                  · subst e0
                    simp [A01, A02, A03, A05, A08]
                  · rw [if_neg e0, hdead idx hidx2]
                    simp [Ne.symm e1, Ne.symm e2, Ne.symm e3, Ne.symm e5,
                      Ne.symm e8]

theorem glider_alive_nodup (u : Universe) (r0 r1 r2 c0 c1 c2 : Nat)
    (hbc0 : c0 < u.width) (hbc1 : c1 < u.width) (hbc2 : c2 < u.width)
    (hner01 : r0 ≠ r1) (hner02 : r0 ≠ r2) (hner12 : r1 ≠ r2)
    (hnec02 : c0 ≠ c2) (hnec12 : c1 ≠ c2) :
    List.Nodup [u.get_index r0 c1, u.get_index r0 c2, u.get_index r1 c0,
                u.get_index r1 c2, u.get_index r2 c2] := by
  have B12 : u.get_index r0 c1 ≠ u.get_index r0 c2 :=
    get_index_ne u hbc1 hbc2 (Or.inr hnec12)
  have B13 : u.get_index r0 c1 ≠ u.get_index r1 c0 :=
    get_index_ne u hbc1 hbc0 (Or.inl hner01)
  have B15 : u.get_index r0 c1 ≠ u.get_index r1 c2 :=
    get_index_ne u hbc1 hbc2 (Or.inl hner01)
  have B18 : u.get_index r0 c1 ≠ u.get_index r2 c2 :=
    get_index_ne u hbc1 hbc2 (Or.inl hner02)
  have B23 : u.get_index r0 c2 ≠ u.get_index r1 c0 :=
    get_index_ne u hbc2 hbc0 (Or.inl hner01)
  have B25 : u.get_index r0 c2 ≠ u.get_index r1 c2 :=
    get_index_ne u hbc2 hbc2 (Or.inl hner01)
  have B28 : u.get_index r0 c2 ≠ u.get_index r2 c2 :=
    get_index_ne u hbc2 hbc2 (Or.inl hner02)
  have B35 : u.get_index r1 c0 ≠ u.get_index r1 c2 :=
    get_index_ne u hbc0 hbc2 (Or.inr hnec02)
  have B38 : u.get_index r1 c0 ≠ u.get_index r2 c2 :=
    get_index_ne u hbc0 hbc2 (Or.inl hner12)
  have B58 : u.get_index r1 c2 ≠ u.get_index r2 c2 :=
    get_index_ne u hbc2 hbc2 (Or.inl hner12)
  simp [List.nodup_cons, B12, B13, B15, B18, B23, B25, B28, B35, B38, B58]

/-- C6: on a board of dimensions at least 3 by 3 whose cells are all dead,
seeding a glider at (row, col) overwrites the wrapped 3 by 3 neighborhood
centered there with the fixed 9-cell pattern in row-major order and leaves
every other cell dead: an in-range index is alive afterwards exactly when it
is one of the five pattern cells, those five indices are pairwise distinct,
and all five lie inside the grid, so exactly five cells are alive. -/
theorem glider_seed_exact (u : Universe) (row col : Nat)
    (hh : 3 ≤ u.height) (hw : 3 ≤ u.width)
    (hs : u.width * u.height ≤ u.cells.size)
    (hdead : ∀ i, i < u.cells.size → u.getCell i = false) :
    (∀ idx, idx < u.width * u.height →
      ((u.new_glider_at row col).getCell idx = true ↔
        idx ∈ gliderPatternAlive u row col)) ∧
    (gliderPatternAlive u row col).Nodup ∧
    (∀ i ∈ gliderPatternAlive u row col, i < u.width * u.height) := by
  have hh0 : 0 < u.height := by omega
  have hw0 : 0 < u.width := by omega
  have hner01 : (row + (u.height - 1)) % u.height ≠ row % u.height := by
    rw [add_pred_mod_eq row u.height (by omega)]
    split_ifs <;> omega
  have hner02 : (row + (u.height - 1)) % u.height ≠ (row + 1) % u.height := by
    rw [add_pred_mod_eq row u.height (by omega),
      add_one_mod_eq row u.height (by omega)]
    have hblt : row % u.height < u.height := Nat.mod_lt _ hh0
    split_ifs <;> omega
  have hner12 : row % u.height ≠ (row + 1) % u.height := by
    rw [add_one_mod_eq row u.height (by omega)]
    split_ifs <;> omega
  have hnec01 : (col + (u.width - 1)) % u.width ≠ col % u.width := by
    rw [add_pred_mod_eq col u.width (by omega)]
    split_ifs <;> omega
  have hnec02 : (col + (u.width - 1)) % u.width ≠ (col + 1) % u.width := by
    rw [add_pred_mod_eq col u.width (by omega),
      add_one_mod_eq col u.width (by omega)]
    have hblt : col % u.width < u.width := Nat.mod_lt _ hw0
    split_ifs <;> omega
  have hnec12 : col % u.width ≠ (col + 1) % u.width := by
    rw [add_one_mod_eq col u.width (by omega)]
    split_ifs <;> omega
  have hcells : (u.new_glider_at row col).cells
      = fbsSet (fbsSet (fbsSet (fbsSet (fbsSet (fbsSet (fbsSet (fbsSet
          (fbsSet u.cells
            (u.get_index ((row + (u.height - 1)) % u.height)
              ((col + (u.width - 1)) % u.width)) false)
            (u.get_index ((row + (u.height - 1)) % u.height)
              (col % u.width)) true)
            (u.get_index ((row + (u.height - 1)) % u.height)
              ((col + 1) % u.width)) true)
            (u.get_index (row % u.height)
              ((col + (u.width - 1)) % u.width)) true)
            (u.get_index (row % u.height) (col % u.width)) false)
            (u.get_index (row % u.height) ((col + 1) % u.width)) true)
            (u.get_index ((row + 1) % u.height)
              ((col + (u.width - 1)) % u.width)) false)
            (u.get_index ((row + 1) % u.height) (col % u.width)) false)
            (u.get_index ((row + 1) % u.height) ((col + 1) % u.width)) true := by
    simp only [Universe.new_glider_at, List.foldl_cons, List.foldl_nil,
      List.getD, Nat.add_zero, Nat.reduceAdd, List.get?_cons_zero,
      List.get?_cons_succ, Option.getD_some]
  refine ⟨?_, ?_, ?_⟩
  · intro idx hidx
    simp only [Universe.getCell, hcells, gliderPatternAlive]
    exact glider_chain_char u _ _ _ _ _ _
      (Nat.mod_lt _ hw0) (Nat.mod_lt _ hw0) (Nat.mod_lt _ hw0)
      hner01 hner02 hner12 hnec01 hnec02 hnec12 hs hdead idx hidx
  · simp only [gliderPatternAlive]
    exact glider_alive_nodup u _ _ _ _ _ _
      (Nat.mod_lt _ hw0) (Nat.mod_lt _ hw0) (Nat.mod_lt _ hw0)
      hner01 hner02 hner12 hnec02 hnec12
  · intro i hi
    simp only [gliderPatternAlive, List.mem_cons, List.not_mem_nil,
      or_false] at hi
    rcases hi with h | h | h | h | h <;> subst h <;>
      exact get_index_lt u (Nat.mod_lt _ hh0) (Nat.mod_lt _ hw0)

/-- Witness for C6 at the all-dead 3 by 3 board, glider at the center. -/
theorem glider_seed_exact_witness :
    (∀ idx, idx < threeByThreeDead.width * threeByThreeDead.height →
      ((threeByThreeDead.new_glider_at 1 1).getCell idx = true ↔
        idx ∈ gliderPatternAlive threeByThreeDead 1 1)) ∧
    (gliderPatternAlive threeByThreeDead 1 1).Nodup ∧
    (∀ i ∈ gliderPatternAlive threeByThreeDead 1 1,
      i < threeByThreeDead.width * threeByThreeDead.height) :=
  glider_seed_exact threeByThreeDead 1 1 (by decide) (by decide) (by decide)
    (by decide)
